import Mathlib

/-!
Shallow embedding of `src/main.rs` (a minimal Piston demo: a movable,
pulse-growing rectangle driven by a frame loop).

Real-valued fields of the Rust program (`f64`) are embedded as `ℚ`; all
arithmetic performed by the program on the values of interest (multiples
of `1/2`, `1` and `10`) is exact in both representations.  The OpenGL
backend handle `gl` is external collaborator plumbing and carries no
simulation state, so it is omitted from the embedded `App`; `render`'s
only mutation in the source is to `gl`, which the embedding reflects by
returning the state unchanged alongside the emitted draw commands.
-/

/-- The `Player` struct: position of the player square. -/
structure Player where
  x : ℚ
  y : ℚ
deriving DecidableEq, Repr

/-- The `App` struct: the whole mutable application state
(minus the `gl` backend handle, which holds no simulation data). -/
structure App where
  expand : ℚ
  player : Player
deriving DecidableEq, Repr

/-- `RenderArgs` as passed by piston to `App::render` (width/height in pixels,
converted to `f64` by the source via `as f64`). -/
structure RenderArgs where
  width : ℕ
  height : ℕ
deriving DecidableEq, Repr

/-- `UpdateArgs` as passed by piston to `App::update` (a `dt` field, which
the source never reads). -/
structure UpdateArgs where
  dt : ℚ
deriving DecidableEq, Repr

/-- An RGBA color, as the four `f64` arguments of `rgba`. -/
structure Color where
  r : ℚ
  g : ℚ
  b : ℚ
  a : ℚ
deriving DecidableEq, Repr

/-- The draw commands `App::render` issues against the canvas context:
`fill` is `context.rgba(..).draw` (paints the whole `width × height`
canvas), `rect` is `context.rect(x,y,w,h).rgba(..).draw`. -/
inductive DrawCmd where
  | fill (width height : ℚ) (color : Color)
  | rect (x y width height : ℚ) (color : Color)
deriving DecidableEq, Repr

/-- The background color `rgba(0.6, 0.6, 0.6, 1.0)`. -/
def backgroundColor : Color := ⟨6/10, 6/10, 6/10, 1⟩

/-- The player color `rgba(1.0, 0.0, 0.0, 1.0)`. -/
def playerColor : Color := ⟨1, 0, 0, 1⟩

/-- `App::render`: paints the whole canvas grey, then draws the player
rectangle at `(x - expand/2, y - expand/2)` with size
`(expand + 10) × (expand + 10)` in red.  The source takes `&mut self`
but assigns only to `self.gl`; the embedded state is returned unchanged
together with the issued draw commands. -/
def App.render (app : App) (args : RenderArgs) : App × List DrawCmd :=
  (app,
    [ DrawCmd.fill (args.width : ℚ) (args.height : ℚ) backgroundColor,
      DrawCmd.rect (app.player.x - app.expand / 2) (app.player.y - app.expand / 2)
        (app.expand + 10) (app.expand + 10) playerColor ])

/-- `App::update`: `if self.expand > 0.0 { self.expand -= 1.0 }`. -/
def App.update (app : App) (_args : UpdateArgs) : App :=
  if app.expand > 0 then { app with expand := app.expand - 1 } else app

/-- The keyboard keys distinguished by `handleKey`; every raw key code other
than Up/Down/Left/Right/Space falls into the catch-all arm, modelled by
`other` carrying the raw code. -/
inductive Key where
  | up
  | down
  | left
  | right
  | space
  | other (code : ℕ)
deriving DecidableEq, Repr

/-- `input::Button`: a keyboard key or a mouse button. -/
inductive Button where
  | keyboard (k : Key)
  | mouse (b : ℕ)
deriving DecidableEq, Repr

/-- `handleKey`: dispatch one pressed button to its state mutation.
Arrows move the player by 10 on one axis, Space adds 10 to `expand`,
everything else is the `_ => {}` no-op. -/
def handleKey (key : Button) (app : App) : App :=
  match key with
  | .keyboard .up => { app with player := { app.player with y := app.player.y - 10 } }
  | .keyboard .down => { app with player := { app.player with y := app.player.y + 10 } }
  | .keyboard .left => { app with player := { app.player with x := app.player.x - 10 } }
  | .keyboard .right => { app with player := { app.player with x := app.player.x + 10 } }
  | .keyboard .space => { app with expand := app.expand + 10 }
  | _ => app

/-- Whether a button is in the recognized set {Up, Down, Left, Right, Space}. -/
def recognized (key : Button) : Bool :=
  match key with
  | .keyboard .up => true
  | .keyboard .down => true
  | .keyboard .left => true
  | .keyboard .right => true
  | .keyboard .space => true
  | _ => false

/-- The initial state built in `main`:
`Player { x: 50.0, y: 50.0 }`, `expand: 0.0`. -/
def initApp : App := { expand := 0, player := { x := 50, y := 50 } }

/-- The events the `for e in Events::new(&window)` loop can receive and
dispatches via `e.press`, `e.render`, `e.update`. -/
inductive Event where
  | press (key : Button)
  | renderDue (args : RenderArgs)
  | updateDue (args : UpdateArgs)
deriving DecidableEq, Repr

/-- A tag recording which handler the loop body invoked for one event. -/
inductive Phase where
  | input
  | update
  | render
deriving DecidableEq, Repr

/-- One pass of the body of `main`'s event loop: exactly the matching one of
`e.press(|key| handleKey(key, &mut app))`,
`e.render(|r| app.render(..., r))`,
`e.update(|u| app.update(..., u))` runs.  Returns the new state, the phase
that ran, and the draw commands issued. -/
def loopStep (app : App) (e : Event) : App × Phase × List DrawCmd :=
  match e with
  | .press key => (handleKey key app, Phase.input, [])
  | .renderDue args =>
      let res := app.render args
      (res.1, Phase.render, res.2)
  | .updateDue args => (app.update args, Phase.update, [])

/-- Running `main`'s event loop over a list of events, accumulating the
phase trace and the draw commands in order. -/
def runEvents (app : App) : List Event → App × List Phase × List DrawCmd
  | [] => (app, [], [])
  | e :: es =>
      let step := loopStep app e
      let rest := runEvents step.1 es
      (rest.1, step.2.1 :: rest.2.1, step.2.2 ++ rest.2.2)

/-- Modelled from the spec: the event source (the external `event` crate's
`Events` iterator, absent from `src/`) delivers, per frame, zero or more
key-press events in arrival order, then exactly one "update due" signal,
then exactly one "render due" signal. -/
def frameEvents (keys : List Button) (u : UpdateArgs) (r : RenderArgs) : List Event :=
  keys.map Event.press ++ [Event.updateDue u, Event.renderDue r]

/-- `k` iterations of `App::update` (whose `UpdateArgs` argument is unread). -/
def App.updateN (app : App) (k : ℕ) : App :=
  (fun s => s.update ⟨0⟩)^[k] app

/-- One input-or-update mutation step, for reachability statements:
a pressed button dispatched through `handleKey`, or one `App::update`. -/
inductive Op where
  | key (b : Button)
  | upd (u : UpdateArgs)
deriving DecidableEq, Repr

/-- Apply one mutation step to the state. -/
def applyOp (app : App) : Op → App
  | .key b => handleKey b app
  | .upd u => app.update u

/-- Run a sequence of mutation steps from a state. -/
def runOps (app : App) (ops : List Op) : App :=
  ops.foldl applyOp app

/- ## Helper lemmas -/

/-- `handleKey` either leaves `expand` unchanged or adds exactly 10 (Space). -/
theorem handleKey_expand (b : Button) (app : App) :
    (handleKey b app).expand = app.expand ∨ (handleKey b app).expand = app.expand + 10 := by
  cases b with
  | keyboard k => cases k <;> simp [handleKey]
  | mouse m => simp [handleKey]

/-- Every mutation step keeps `expand` a natural number. -/
theorem applyOp_expand_nat (app : App) (o : Op) (h : ∃ n : ℕ, app.expand = n) :
    ∃ m : ℕ, (applyOp app o).expand = m := by
  obtain ⟨n, hn⟩ := h
  cases o with
  | key b =>
      rcases handleKey_expand b app with h' | h'
      · exact ⟨n, by rw [applyOp, h', hn]⟩
      · exact ⟨n + 10, by rw [applyOp, h', hn]; push_cast; ring⟩
  | upd u =>
      by_cases hpos : app.expand > 0
      · have hn1 : 1 ≤ n := by
          by_contra hlt
          have : n = 0 := by omega
          rw [this] at hn
          simp [hn] at hpos
        refine ⟨n - 1, ?_⟩
        simp only [applyOp, App.update, if_pos hpos]
        rw [hn]
        push_cast [hn1]
        ring
      · exact ⟨n, by simp only [applyOp, App.update, if_neg hpos]; exact hn⟩

/-- Running any step sequence from a state with natural `expand`
keeps `expand` a natural number. -/
theorem runOps_expand_nat (ops : List Op) (app : App) (h : ∃ n : ℕ, app.expand = n) :
    ∃ m : ℕ, (runOps app ops).expand = m := by
  induction ops generalizing app with
  | nil => exact h
  | cons o os ih =>
      simp only [runOps, List.foldl_cons]
      exact ih (applyOp app o) (applyOp_expand_nat app o h)

/-- Unfolding `App.updateN` one iteration at a time. -/
theorem updateN_succ (app : App) (k : ℕ) :
    app.updateN (k + 1) = (app.update ⟨0⟩).updateN k := by
  simp [App.updateN, Function.iterate_succ_apply]

/-- From a natural `expand = n`, `k` updates leave `expand = n - k`
(truncated subtraction). -/
theorem updateN_expand_of_nat (k n : ℕ) (app : App) (h : app.expand = n) :
    (app.updateN k).expand = ((n - k : ℕ) : ℚ) ∧ (app.updateN k).player = app.player := by
  induction k generalizing app n with
  | zero => simp [App.updateN, h]
  | succ k ih =>
      rw [updateN_succ]
      cases n with
      | zero =>
          have hnot : ¬ app.expand > 0 := by rw [h]; norm_num
          have hupd : app.update ⟨0⟩ = app := by simp [App.update, hnot]
          rw [hupd]
          simpa using ih 0 app h
      | succ n =>
          have hpos : app.expand > 0 := by rw [h]; positivity
          have hupd : (app.update ⟨0⟩).expand = (n : ℚ) := by
            simp only [App.update, if_pos hpos]
            rw [h]
            push_cast
            ring
          have hpl : (app.update ⟨0⟩).player = app.player := by
            simp [App.update, hpos]
          obtain ⟨h1, h2⟩ := ih n (app.update ⟨0⟩) hupd
          refine ⟨?_, by rw [h2, hpl]⟩
          rw [h1]
          congr 1
          omega

/-- Running the loop body over a well-formed frame: inputs are dispatched
in order, then one update, then one render. -/
theorem runEvents_frameEvents (keys : List Button) (u : UpdateArgs) (r : RenderArgs)
    (app : App) :
    runEvents app (frameEvents keys u r) =
      ((keys.foldl (fun a b => handleKey b a) app).update u,
       List.replicate keys.length Phase.input ++ [Phase.update, Phase.render],
       (((keys.foldl (fun a b => handleKey b a) app).update u).render r).2) := by
  induction keys generalizing app with
  | nil => simp [frameEvents, runEvents, loopStep, App.render]
  | cons k ks ih =>
      have hcons : frameEvents (k :: ks) u r = Event.press k :: frameEvents ks u r := by
        simp [frameEvents]
      rw [hcons]
      simp only [runEvents, loopStep]
      rw [ih (handleKey k app)]
      simp [List.replicate_succ]

/- ## Claims -/

/-- C1: over one frame's event sequence (zero or more key presses, then the
"update due" signal, then the "render due" signal, as the event-source
contract orders them), `main`'s loop dispatches every pending input to
`handleKey` first, then invokes `App::update` exactly once, then invokes
`App::render` exactly once to draw the frame. -/
theorem frame_loop_phase_order (keys : List Button) (u : UpdateArgs) (r : RenderArgs)
    (app : App) :
    (runEvents app (frameEvents keys u r)).2.1 =
        List.replicate keys.length Phase.input ++ [Phase.update, Phase.render] ∧
      (runEvents app (frameEvents keys u r)).2.1.count Phase.update = 1 ∧
      (runEvents app (frameEvents keys u r)).2.1.count Phase.render = 1 ∧
      (runEvents app (frameEvents keys u r)).1 =
        (keys.foldl (fun a b => handleKey b a) app).update u := by
  rw [runEvents_frameEvents]
  refine ⟨rfl, ?_, ?_, rfl⟩ <;>
    simp [List.count_append, List.count_replicate, List.count_cons]

/-- C2 counterexample: from the non-negative starting value
`effectMagnitude = 1/2`, a single UpdateStep call drives it below zero
(`1/2 - 1 = -1/2`); nothing clamps it to zero. -/
theorem update_clamp_counterexample :
    (0 : ℚ) ≤ 1/2 ∧ ((App.mk (1/2) ⟨50, 50⟩).updateN 1).expand < 0 := by
  constructor
  · norm_num
  · norm_num [App.updateN, App.update]

/-- C2 (amended): for every starting state whose `effectMagnitude` is a
non-negative integer (which covers every state the program can reach) and
every number of UpdateStep calls, `effectMagnitude` never goes below 0. -/
theorem update_clamp_invariant (app : App) (h : ∃ n : ℕ, app.expand = n) (k : ℕ) :
    0 ≤ (app.updateN k).expand := by
  obtain ⟨n, hn⟩ := h
  rw [(updateN_expand_of_nat k n app hn).1]
  exact Nat.cast_nonneg _

/-- Witness for C2 (amended) at `effectMagnitude = 3`, five UpdateStep calls. -/
theorem update_clamp_invariant_witness :
    (∃ n : ℕ, (App.mk 3 ⟨0, 0⟩).expand = n) ∧
      0 ≤ ((App.mk 3 ⟨0, 0⟩).updateN 5).expand :=
  ⟨⟨3, by norm_num⟩, update_clamp_invariant (App.mk 3 ⟨0, 0⟩) ⟨3, by norm_num⟩ 5⟩

/-- C3 counterexample: `effectMagnitude = 1/2 > 0`, `⌈(1/2)/1⌉ = 1`, yet
after exactly 1 UpdateStep call the value is `-1/2`, not 0. -/
theorem decay_convergence_counterexample :
    (0 : ℚ) < 1/2 ∧ ⌈(1/2 : ℚ) / 1⌉ = 1 ∧
      ((App.mk (1/2) ⟨50, 50⟩).updateN 1).expand ≠ 0 := by
  refine ⟨by norm_num, ?_, ?_⟩
  · norm_num [Int.ceil_eq_iff]
  · norm_num [App.updateN, App.update]

/-- C3 (amended): for every positive integer `M`, starting from
`effectMagnitude = M`, UpdateStep leaves the value nonzero for the first
`M - 1` calls, reaches exactly 0 after exactly `M = ⌈M / 1⌉` calls, and
every further call leaves it at exactly 0. -/
theorem decay_convergence (m : ℕ) (_hm : 0 < m) (pos : Player) :
    ⌈(m : ℚ) / 1⌉ = m ∧
      (∀ k, k < m → ((App.mk m pos).updateN k).expand ≠ 0) ∧
      ((App.mk m pos).updateN m).expand = 0 ∧
      (∀ j, ((App.mk m pos).updateN (m + j)).expand = 0) := by
  refine ⟨by simp, ?_, ?_, ?_⟩
  · intro k hk
    rw [(updateN_expand_of_nat k m (App.mk m pos) rfl).1]
    have hk' : m - k ≠ 0 := by omega
    exact_mod_cast hk'
  · rw [(updateN_expand_of_nat m m (App.mk m pos) rfl).1]
    simp
  · intro j
    rw [(updateN_expand_of_nat (m + j) m (App.mk m pos) rfl).1]
    have hj : m - (m + j) = 0 := by omega
    rw [hj]
    simp

/-- Witness for C3 (amended) at `M = 2`. -/
theorem decay_convergence_witness :
    0 < 2 ∧ ((App.mk ((2 : ℕ) : ℚ) ⟨0, 0⟩).updateN 2).expand = 0 :=
  ⟨by norm_num, (decay_convergence 2 (by norm_num) ⟨0, 0⟩).2.2.1⟩

/-- C4: each recognized key mutates exactly its documented field by 10:
Up decreases `player.y`, Down increases it, Left decreases `player.x`,
Right increases it, Space (Trigger) increases `expand`. -/
theorem handleKey_recognized_actions (app : App) :
    (handleKey (.keyboard .up) app).player.y = app.player.y - 10 ∧
      (handleKey (.keyboard .down) app).player.y = app.player.y + 10 ∧
      (handleKey (.keyboard .left) app).player.x = app.player.x - 10 ∧
      (handleKey (.keyboard .right) app).player.x = app.player.x + 10 ∧
      (handleKey (.keyboard .space) app).expand = app.expand + 10 :=
  ⟨rfl, rfl, rfl, rfl, rfl⟩

/-- C5: any button outside the recognized set {Up, Down, Left, Right, Space}
leaves the whole state unchanged; the handler is a total function, defined
on every `Button` value. -/
theorem handleKey_unrecognized_noop (app : App) (b : Button)
    (h : recognized b = false) : handleKey b app = app := by
  cases b with
  | keyboard k => cases k <;> simp_all [recognized, handleKey]
  | mouse m => rfl

/-- Witness for C5 at an unrecognized keyboard key. -/
theorem handleKey_unrecognized_noop_witness :
    recognized (Button.keyboard (Key.other 42)) = false ∧
      handleKey (Button.keyboard (Key.other 42)) initApp = initApp :=
  ⟨rfl, handleKey_unrecognized_noop initApp (Button.keyboard (Key.other 42)) rfl⟩

/-- C6: Right then Left returns the position (indeed the whole state) to its
original value, and likewise Up then Down: each directional pair is inverse. -/
theorem movement_inverse_pairs (app : App) :
    handleKey (.keyboard .left) (handleKey (.keyboard .right) app) = app ∧
      handleKey (.keyboard .down) (handleKey (.keyboard .up) app) = app := by
  obtain ⟨e, x, y⟩ := app
  constructor <;> simp [handleKey]

/-- C7: RenderStep draws the background and then the player rectangle with
top-left corner `(x - expand/2, y - expand/2)` and width and height
`10 + expand`; at position `(50, 50)` with `expand = 20` the rectangle is
at `(40, 40)` with width and height 30. -/
theorem render_rectangle_geometry (app : App) (args : RenderArgs) :
    (app.render args).2 =
        [ DrawCmd.fill (args.width : ℚ) (args.height : ℚ) backgroundColor,
          DrawCmd.rect (app.player.x - app.expand / 2) (app.player.y - app.expand / 2)
            (10 + app.expand) (10 + app.expand) playerColor ] ∧
      ((App.mk 20 ⟨50, 50⟩).render ⟨640, 480⟩).2 =
        [ DrawCmd.fill 640 480 backgroundColor,
          DrawCmd.rect 40 40 30 30 playerColor ] := by
  constructor
  · simp [App.render, add_comm]
  · norm_num [App.render]

/-- C8: RenderStep is pure: with identical state and identical canvas
extents it issues identical draw-command sequences, and the application
state is unchanged after the call. -/
theorem render_purity (a₁ a₂ : App) (r₁ r₂ : RenderArgs)
    (hs : a₁ = a₂) (hr : r₁ = r₂) :
    (a₁.render r₁).2 = (a₂.render r₂).2 ∧ (a₁.render r₁).1 = a₁ := by
  subst hs
  subst hr
  exact ⟨rfl, rfl⟩

/-- Witness for C8 at the initial state and a 640×480 canvas. -/
theorem render_purity_witness :
    initApp = initApp ∧ (⟨640, 480⟩ : RenderArgs) = ⟨640, 480⟩ ∧
      (initApp.render ⟨640, 480⟩).2 = (initApp.render ⟨640, 480⟩).2 ∧
      (initApp.render ⟨640, 480⟩).1 = initApp :=
  ⟨rfl, rfl, (render_purity initApp initApp ⟨640, 480⟩ ⟨640, 480⟩ rfl rfl).1,
    (render_purity initApp initApp ⟨640, 480⟩ ⟨640, 480⟩ rfl rfl).2⟩

/-- C9: from the initial state, after any sequence of key-handler and
UpdateStep calls, `effectMagnitude` is a non-negative integer, hence it
never goes below 0 in any reachable state. -/
theorem reachable_expand_nonneg (ops : List Op) :
    (∃ n : ℕ, (runOps initApp ops).expand = n) ∧
      0 ≤ (runOps initApp ops).expand := by
  have h := runOps_expand_nat ops initApp ⟨0, by norm_num [initApp]⟩
  refine ⟨h, ?_⟩
  obtain ⟨m, hm⟩ := h
  rw [hm]
  exact Nat.cast_nonneg m

/-- C10: each mutator touches only its own field: UpdateStep never changes
the position, Space never changes the position, and each directional key
changes exactly its one axis (really changing it) while leaving the other
axis and `expand` unchanged. -/
theorem mutator_frame_conditions (app : App) (u : UpdateArgs) :
    (app.update u).player = app.player ∧
      (handleKey (.keyboard .space) app).player = app.player ∧
      (handleKey (.keyboard .up) app).player.x = app.player.x ∧
      (handleKey (.keyboard .up) app).expand = app.expand ∧
      (handleKey (.keyboard .up) app).player.y ≠ app.player.y ∧
      (handleKey (.keyboard .down) app).player.x = app.player.x ∧
      (handleKey (.keyboard .down) app).expand = app.expand ∧
      (handleKey (.keyboard .down) app).player.y ≠ app.player.y ∧
      (handleKey (.keyboard .left) app).player.y = app.player.y ∧
      (handleKey (.keyboard .left) app).expand = app.expand ∧
      (handleKey (.keyboard .left) app).player.x ≠ app.player.x ∧
      (handleKey (.keyboard .right) app).player.y = app.player.y ∧
      (handleKey (.keyboard .right) app).expand = app.expand ∧
      (handleKey (.keyboard .right) app).player.x ≠ app.player.x := by
  refine ⟨?_, rfl, rfl, rfl, ?_, rfl, rfl, ?_, rfl, rfl, ?_, rfl, rfl, ?_⟩
  · simp only [App.update]
    split <;> rfl
  all_goals simp [handleKey, sub_eq_self]
